import Mathlib

/-!
Shallow embedding of the animation/state core of the `es-theme-superkonna`
overlay (Rust), together with proofs of the specification claims.

Sources embedded:
 - `src/projects/overlay/src/menu.rs`   (Menu state machine)
 - `src/projects/overlay/src/popup.rs`  (Popup lifecycle and queue)
 - `src/projects/overlay/src/renderer.rs` (`measure_text`, `truncate_to_width`)
 - `src/projects/overlay/src/socket.rs` (`parse_command`)

Modelling conventions:
 - `Instant::now()` is modelled by threading an explicit `now : Nat`
   (milliseconds) into every operation that reads the clock;
   `start.elapsed()` becomes the saturating `now - start` on `Nat`
   (matching `Instant`, which never yields a negative duration).
 - `f32` arithmetic in `opacity`/`slide_offset`/glyph widths is modelled
   over `ℚ` (the spec's properties are about ordering and range, not
   float rounding).
 - `HashMap<String, Instant>` is modelled as an association list
   `List (String × Nat)`; `remove` deletes every entry with the key
   (a `HashMap` holds at most one), `entry(..).or_insert_with` inserts
   only when the key is absent.
 - Rust's panicking index `self.items[idx]` is modelled with `[idx]?`;
   the out-of-range branch (unreachable under the cursor invariant
   `cursor < items.len()`) behaves as "no action".
-/

/-- Mirrors `config.rs`: `struct MenuItem` (the fields the menu core reads). -/
structure MenuItem where
  id : String
  label : String
  icon : Option String
  action : String
  command : Option String
  confirm : Bool
  bind : Option String
  hold_bind : Option String
  hold_ms : Nat
  hint_label : Option String
deriving DecidableEq, Repr

/-- Mirrors `menu.rs`: `enum MenuState`. -/
inductive MenuState where
  | Closed
  | Opening
  | Open
  | Confirming (item_idx : Nat)
  | Closing
deriving DecidableEq, Repr

/-- Mirrors `menu.rs`: `enum MenuAction`. -/
inductive MenuAction where
  | Dismiss
  | RetroArch (cmd : String)
  | Shell (cmd : String)
deriving DecidableEq, Repr

/-- Mirrors `menu.rs`: `struct Menu` (timestamps as `Nat` milliseconds). -/
structure Menu where
  state : MenuState
  cursor : Nat
  items : List MenuItem
  transition_start : Nat
  dirty : Bool
  hold_starts : List (String × Nat)
deriving DecidableEq, Repr

/-- `menu.rs`: `OPEN_DURATION_MS`. -/
def OPEN_DURATION_MS : Nat := 200

/-- `menu.rs`: `CLOSE_DURATION_MS`. -/
def CLOSE_DURATION_MS : Nat := 150

namespace Menu

/-- Mirrors `Menu::new`. -/
def new (items : List MenuItem) (now : Nat) : Menu :=
  { state := .Closed, cursor := 0, items := items,
    transition_start := now, dirty := false, hold_starts := [] }

/-- Mirrors `Menu::toggle`. -/
def toggle (m : Menu) (now : Nat) : Menu :=
  match m.state with
  | .Closed =>
      { m with state := .Opening, transition_start := now, cursor := 0, dirty := true }
  | .Open | .Confirming _ =>
      { m with state := .Closing, transition_start := now, dirty := true }
  | _ => m

/-- Mirrors `Menu::move_up`. -/
def move_up (m : Menu) : Menu :=
  match m.state with
  | .Open =>
      if m.items.isEmpty then m
      else
        { m with
          cursor := if m.cursor = 0 then m.items.length - 1 else m.cursor - 1,
          dirty := true }
  | _ => m

/-- Mirrors `Menu::move_down`. -/
def move_down (m : Menu) : Menu :=
  match m.state with
  | .Open =>
      if m.items.isEmpty then m
      else { m with cursor := (m.cursor + 1) % m.items.length, dirty := true }
  | _ => m

/-- The action-resolution part of `Menu::execute_item` (the `match` on
`item.action.as_str()`). -/
def resolveAction (item : MenuItem) : Option MenuAction :=
  match item.action with
  | "dismiss" => some .Dismiss
  | "retroarch" => item.command.map .RetroArch
  | "shell" => item.command.map .Shell
  | _ => none

/-- Mirrors `Menu::execute_item`: resolve the action, then start Closing. -/
def execute_item (m : Menu) (idx now : Nat) : Option MenuAction × Menu :=
  let action :=
    match m.items[idx]? with
    | some item => resolveAction item
    | none => none
  (action, { m with state := .Closing, transition_start := now, dirty := true })

/-- Mirrors `Menu::select`. -/
def select (m : Menu) (now : Nat) : Option MenuAction × Menu :=
  if m.items.isEmpty then (none, m)
  else
    match m.state with
    | .Open =>
        match m.items[m.cursor]? with
        | some item =>
            if item.confirm then
              (none, { m with state := .Confirming m.cursor, dirty := true })
            else m.execute_item m.cursor now
        | none => (none, m)
    | .Confirming item_idx => m.execute_item item_idx now
    | _ => (none, m)

/-- Mirrors `Menu::back`. -/
def back (m : Menu) (now : Nat) : Menu :=
  match m.state with
  | .Open => { m with state := .Closing, transition_start := now, dirty := true }
  | .Confirming _ => { m with state := .Open, dirty := true }
  | _ => m

/-- Mirrors `Menu::tick`. -/
def tick (m : Menu) (now : Nat) : Menu :=
  let elapsed := now - m.transition_start
  match m.state with
  | .Opening =>
      if elapsed ≥ OPEN_DURATION_MS then { m with state := .Open, dirty := true }
      else { m with dirty := true }
  | .Closing =>
      if elapsed ≥ CLOSE_DURATION_MS then { m with state := .Closed, dirty := true }
      else { m with dirty := true }
  | _ => m

/-- `matches!(self.state, MenuState::Open | MenuState::Confirming { .. })`. -/
def openish (s : MenuState) : Bool :=
  match s with
  | .Open => true
  | .Confirming _ => true
  | _ => false

/-- Mirrors `Menu::activate_bind`. -/
def activate_bind (m : Menu) (button : String) (now : Nat) : Option MenuAction × Menu :=
  if openish m.state then
    match m.items.findIdx? (fun it => it.bind = some button) with
    | some idx =>
        match m.items[idx]? with
        | some item =>
            if item.confirm then
              (none, { m with cursor := idx, state := .Confirming idx, dirty := true })
            else m.execute_item idx now
        | none => (none, m)
    | none => (none, m)
  else (none, m)

/-- Mirrors `Menu::hold_start` (`entry(..).or_insert_with(Instant::now)`). -/
def hold_start (m : Menu) (button : String) (now : Nat) : Menu :=
  if openish m.state then
    let hs :=
      if (m.hold_starts.lookup button).isSome then m.hold_starts
      else (button, now) :: m.hold_starts
    { m with hold_starts := hs, dirty := true }
  else m

/-- Mirrors `Menu::hold_release` (`self.hold_starts.remove(button)`). -/
def hold_release (m : Menu) (button : String) : Menu :=
  { m with hold_starts := m.hold_starts.filter (fun p => p.1 ≠ button),
           dirty := true }

/-- The scan loop of `Menu::check_holds`: the first item (in list order,
starting at index `idx`) whose hold binding has a recorded start that
reached the item's threshold. Returns that item's index and button. -/
def findHold (hs : List (String × Nat)) (now : Nat) :
    List MenuItem → Nat → Option (Nat × String)
  | [], _ => none
  | it :: rest, idx =>
      match it.hold_bind with
      | none => findHold hs now rest (idx + 1)
      | some b =>
          match hs.lookup b with
          | some start =>
              if now - start ≥ it.hold_ms then some (idx, b)
              else findHold hs now rest (idx + 1)
          | none => findHold hs now rest (idx + 1)

/-- Mirrors `Menu::check_holds`. -/
def check_holds (m : Menu) (now : Nat) : Option MenuAction × Menu :=
  if openish m.state then
    match findHold m.hold_starts now m.items 0 with
    | some (idx, b) =>
        let m' := { m with hold_starts := m.hold_starts.filter (fun p => p.1 ≠ b) }
        m'.execute_item idx now
    | none => (none, m)
  else (none, { m with hold_starts := [] })

end Menu

/-! ## Popup lifecycle and queue (`popup.rs`) -/

/-- `popup.rs`: `SLIDE_IN_MS`. -/
def SLIDE_IN_MS : Nat := 300

/-- `popup.rs`: `HOLD_MS`. -/
def HOLD_MS : Nat := 4000

/-- `popup.rs`: `FADE_OUT_MS`. -/
def FADE_OUT_MS : Nat := 500

/-- Mirrors `popup.rs`: `enum Phase`. -/
inductive Phase where
  | SlideIn
  | Hold
  | FadeOut
  | Done
deriving DecidableEq, Repr

/-- Mirrors `popup.rs`: `struct Popup`.

The field `forced_hold` is the state behind the force-hold affordance.
Modelled from the spec: `Popup::force_hold` is called from
`src/bin/preview.rs` but its definition is not part of the sources under
`src/`; the spec describes it as a test/preview override that "pins the
phase to Hold ... regardless of elapsed time". -/
structure Popup where
  title : String
  description : String
  started : Nat
  phase : Phase
  forced_hold : Bool
deriving DecidableEq, Repr

namespace Popup

/-- Mirrors `Popup::new`. -/
def new (title description : String) (now : Nat) : Popup :=
  { title := title, description := description, started := now,
    phase := .SlideIn, forced_hold := false }

/-- Mirrors `Popup::opacity` (over `ℚ`). -/
def opacity (p : Popup) (now : Nat) : ℚ :=
  let elapsed := now - p.started
  match p.phase with
  | .SlideIn => min ((elapsed : ℚ) / (SLIDE_IN_MS : ℚ)) 1
  | .Hold => 1
  | .FadeOut =>
      let fade_elapsed := elapsed - (SLIDE_IN_MS + HOLD_MS)
      1 - min ((fade_elapsed : ℚ) / (FADE_OUT_MS : ℚ)) 1
  | .Done => 0

/-- Mirrors `Popup::slide_offset` (over `ℚ`). -/
def slide_offset (p : Popup) (now : Nat) : ℚ :=
  match p.phase with
  | .SlideIn =>
      let t := min (((now - p.started : Nat) : ℚ) / (SLIDE_IN_MS : ℚ)) 1
      1 - (1 - (1 - t) ^ 3)
  | _ => 0

/-- The phase `Popup::tick` computes from the elapsed time. -/
def phaseOf (elapsed : Nat) : Phase :=
  if elapsed < SLIDE_IN_MS then .SlideIn
  else if elapsed < SLIDE_IN_MS + HOLD_MS then .Hold
  else if elapsed < SLIDE_IN_MS + HOLD_MS + FADE_OUT_MS then .FadeOut
  else .Done

/-- Mirrors `Popup::tick`, except that a pinned popup stays in Hold.
Modelled from the spec: the force-hold override (absent from
`src/popup.rs`, called from `preview.rs`) "pins the phase to Hold
regardless of elapsed time", so a pinned popup is not re-phased. -/
def tick (p : Popup) (now : Nat) : Popup :=
  if p.forced_hold then { p with phase := .Hold }
  else { p with phase := phaseOf (now - p.started) }

/-- Mirrors `Popup::is_done`. -/
def is_done (p : Popup) : Bool := p.phase = .Done

/-- Modelled from the spec: `Popup::force_hold` (absent from
`src/popup.rs`; called from `src/bin/preview.rs`) — "an explicit
override forces the popup into Hold phase regardless of elapsed time
(for deterministic snapshot rendering)". -/
def force_hold (p : Popup) : Popup :=
  { p with phase := .Hold, forced_hold := true }

end Popup

/-- Mirrors `popup.rs`: `struct PopupQueue`. -/
structure PopupQueue where
  queue : List Popup
deriving DecidableEq, Repr

namespace PopupQueue

/-- Mirrors `PopupQueue::new`. -/
def new : PopupQueue := ⟨[]⟩

/-- Mirrors `PopupQueue::push`. -/
def push (q : PopupQueue) (p : Popup) : PopupQueue := ⟨q.queue ++ [p]⟩

/-- Mirrors `PopupQueue::tick`. -/
def tick (q : PopupQueue) (now : Nat) : PopupQueue :=
  match q.queue with
  | [] => q
  | p :: rest =>
      let p' := p.tick now
      if p'.is_done then
        match rest with
        | [] => ⟨[]⟩
        | next :: rest' => ⟨{ next with started := now } :: rest'⟩
      else ⟨p' :: rest⟩

/-- Mirrors `PopupQueue::current`. -/
def current (q : PopupQueue) : Option Popup := q.queue.head?

end PopupQueue

/-! ## Text measurement and truncation (`renderer.rs`)

The glyph metrics of a `fontdue::Font` at a given size are abstracted as
a function `w : Char → ℚ` giving each character's advance width. -/

/-- Mirrors `renderer.rs`: `measure_text` — sum of per-glyph advances. -/
def measure_text (w : Char → ℚ) (text : List Char) : ℚ :=
  (text.map w).sum

/-- The accumulation loop of `truncate_to_width`: `acc` is the `result`
string built so far and `wid` the accumulated `width`. -/
def truncGo (w : Char → ℚ) (ew maxW : ℚ) :
    List Char → ℚ → List Char → List Char
  | [], _, acc => acc
  | ch :: rest, wid, acc =>
      let cw := w ch
      if wid + cw + ew > maxW ∧ acc ≠ [] then acc ++ ['.', '.', '.']
      else truncGo w ew maxW rest (wid + cw) (acc ++ [ch])

/-- Mirrors `renderer.rs`: `truncate_to_width`. -/
def truncate_to_width (w : Char → ℚ) (text : List Char) (maxW : ℚ) :
    List Char :=
  truncGo w (measure_text w ['.', '.', '.']) maxW text 0 []

/-! ## Command parsing (`socket.rs`)

Rust `&str` values are modelled as `List Char` (so that the parser is
kernel-computable); `SocketCommand` carries Lean `String`s built from
those character lists. -/

/-- Mirrors `socket.rs`: `enum SocketCommand`. -/
inductive SocketCommand where
  | MenuToggle
  | MenuUp
  | MenuDown
  | MenuSelect
  | MenuBack
  | Popup (title description : String)
deriving DecidableEq, Repr

/-- Rust `str::trim`: strip leading and trailing whitespace. -/
def rustTrim (s : List Char) : List Char :=
  ((s.dropWhile Char.isWhitespace).reverse.dropWhile Char.isWhitespace).reverse

/-- Rust `str::splitn(2, sep)`: the piece before the first `sep`, and,
when `sep` occurs, everything after that first occurrence. -/
def splitn2 (sep : Char) : List Char → List Char × Option (List Char)
  | [] => ([], none)
  | c :: cs =>
      if c = sep then ([], some cs)
      else
        let r := splitn2 sep cs
        (c :: r.1, r.2)

/-- The `match` body of `parse_command`, applied to the trimmed line.
For a line starting with `"POPUP "`, `parts.next().unwrap_or("")` is the
text before the first `'|'` and the second `next()` is the remainder
after it (empty when there is no `'|'`). -/
def parse_trimmed (t : List Char) : Option SocketCommand :=
  if t = "MENU_TOGGLE".toList then some .MenuToggle
  else if t = "MENU_UP".toList then some .MenuUp
  else if t = "MENU_DOWN".toList then some .MenuDown
  else if t = "MENU_SELECT".toList then some .MenuSelect
  else if t = "MENU_BACK".toList then some .MenuBack
  else if "POPUP ".toList.isPrefixOf t then
    let rest := t.drop 6
    let parts := splitn2 '|' rest
    some (.Popup (String.mk parts.1) (String.mk (parts.2.getD [])))
  else none

/-- Mirrors `socket.rs`: `parse_command` (`match line.trim() { ... }`). -/
def parse_command (line : List Char) : Option SocketCommand :=
  parse_trimmed (rustTrim line)

/-! ## Helper lemmas -/

theorem mod_succ_mod (a n : Nat) : (a % n + 1) % n = (a + 1) % n := by
  conv_rhs => rw [Nat.add_mod]
  rw [Nat.add_mod (a % n) 1, Nat.mod_mod_of_dvd a dvd_rfl]

namespace Menu

theorem move_down_state (m : Menu) : (m.move_down).state = m.state := by
  obtain ⟨s, c, it, t, d, hs⟩ := m
  cases s <;> (dsimp only [move_down]; try rfl) <;> split <;> rfl

theorem move_down_items (m : Menu) : (m.move_down).items = m.items := by
  obtain ⟨s, c, it, t, d, hs⟩ := m
  cases s <;> (dsimp only [move_down]; try rfl) <;> split <;> rfl

theorem move_up_state (m : Menu) : (m.move_up).state = m.state := by
  obtain ⟨s, c, it, t, d, hs⟩ := m
  cases s <;> (dsimp only [move_up]; try rfl) <;> split <;> rfl

theorem move_up_items (m : Menu) : (m.move_up).items = m.items := by
  obtain ⟨s, c, it, t, d, hs⟩ := m
  cases s <;> (dsimp only [move_up]; try rfl) <;> split <;> rfl

theorem move_down_cursor (m : Menu) (h : m.state = .Open)
    (hne : ¬ m.items.isEmpty) :
    (m.move_down).cursor = (m.cursor + 1) % m.items.length := by
  unfold move_down
  rw [h]
  simp [hne]

theorem move_up_cursor (m : Menu) (h : m.state = .Open)
    (hne : ¬ m.items.isEmpty) (hc : m.cursor < m.items.length) :
    (m.move_up).cursor = (m.cursor + (m.items.length - 1)) % m.items.length := by
  unfold move_up
  rw [h]
  simp only [hne, if_false, Bool.false_eq_true]
  have hn : 0 < m.items.length := by
    cases hl : m.items with
    | nil => simp [hl] at hne
    | cons a l => simp [hl]
  rcases Nat.eq_zero_or_pos m.cursor with h0 | hpos
  · simp only [h0, if_pos rfl]
    simp [Nat.mod_eq_of_lt (Nat.sub_lt hn Nat.one_pos)]
  · have : ¬ m.cursor = 0 := Nat.pos_iff_ne_zero.mp hpos
    simp only [this, if_false]
    have h1 : 1 ≤ m.cursor := hpos
    have : m.cursor + (m.items.length - 1) =
        m.items.length + (m.cursor - 1) := by omega
    rw [this, Nat.add_mod_left, Nat.mod_eq_of_lt (by omega)]

theorem move_down_iterate (m : Menu) (h : m.state = .Open)
    (hne : ¬ m.items.isEmpty) (hc : m.cursor < m.items.length) (k : Nat) :
    (Menu.move_down^[k] m).state = .Open ∧
    (Menu.move_down^[k] m).items = m.items ∧
    (Menu.move_down^[k] m).cursor = (m.cursor + k) % m.items.length := by
  induction k with
  | zero => exact ⟨h, rfl, by simpa using (Nat.mod_eq_of_lt hc).symm⟩
  | succ k ih =>
      obtain ⟨hs, hi, hcur⟩ := ih
      rw [Function.iterate_succ_apply']
      refine ⟨by rw [move_down_state, hs], by rw [move_down_items, hi], ?_⟩
      rw [move_down_cursor _ hs (by rwa [hi]), hi, hcur, mod_succ_mod,
        Nat.add_assoc]

theorem move_up_iterate (m : Menu) (h : m.state = .Open)
    (hne : ¬ m.items.isEmpty) (hc : m.cursor < m.items.length) (k : Nat) :
    (Menu.move_up^[k] m).state = .Open ∧
    (Menu.move_up^[k] m).items = m.items ∧
    (Menu.move_up^[k] m).cursor =
      (m.cursor + k * (m.items.length - 1)) % m.items.length := by
  induction k with
  | zero => exact ⟨h, rfl, by simpa using (Nat.mod_eq_of_lt hc).symm⟩
  | succ k ih =>
      obtain ⟨hs, hi, hcur⟩ := ih
      rw [Function.iterate_succ_apply']
      refine ⟨by rw [move_up_state, hs], by rw [move_up_items, hi], ?_⟩
      have hck : (Menu.move_up^[k] m).cursor < (Menu.move_up^[k] m).items.length := by
        rw [hi, hcur]
        exact Nat.mod_lt _ (by simp [List.isEmpty_iff] at hne; cases hl : m.items with
          | nil => exact absurd hl hne
          | cons a l => simp [hl])
      rw [move_up_cursor _ hs (by rwa [hi]) hck, hi, hcur]
      rw [Nat.add_mod ((m.cursor + k * (m.items.length - 1)) % m.items.length)]
      rw [Nat.mod_mod_of_dvd _ dvd_rfl, ← Nat.add_mod]
      ring_nf

end Menu

namespace Menu

theorem move_up_empty (m : Menu) (he : m.items.isEmpty) : m.move_up = m := by
  obtain ⟨s, c, it, t, d, hs⟩ := m
  cases s <;> simp_all [move_up]

theorem move_down_empty (m : Menu) (he : m.items.isEmpty) : m.move_down = m := by
  obtain ⟨s, c, it, t, d, hs⟩ := m
  cases s <;> simp_all [move_down]

theorem move_up_not_open (m : Menu) (h : m.state ≠ .Open) : m.move_up = m := by
  obtain ⟨s, c, it, t, d, hs⟩ := m
  cases s <;> first | rfl | exact absurd rfl h

theorem move_down_not_open (m : Menu) (h : m.state ≠ .Open) : m.move_down = m := by
  obtain ⟨s, c, it, t, d, hs⟩ := m
  cases s <;> first | rfl | exact absurd rfl h

end Menu

/-- Test fixture mirroring `menu.rs` `tests::test_items()`. -/
def itemResume : MenuItem :=
  { id := "resume", label := "Resume", icon := none, action := "dismiss",
    command := none, confirm := false, bind := some "b", hold_bind := none,
    hold_ms := 1500, hint_label := none }

/-- Test fixture mirroring `menu.rs` `tests::test_items()`. -/
def itemSave : MenuItem :=
  { id := "save", label := "Save State", icon := none, action := "retroarch",
    command := some "SAVE_STATE", confirm := false, bind := none,
    hold_bind := some "y", hold_ms := 1500, hint_label := some "Save" }

/-- Test fixture mirroring `menu.rs` `tests::test_items()`. -/
def itemQuit : MenuItem :=
  { id := "quit", label := "Quit", icon := none, action := "retroarch",
    command := some "QUIT", confirm := true, bind := none,
    hold_bind := some "start", hold_ms := 2000, hint_label := some "Quit" }

/-- The three-item test list of `menu.rs`. -/
def testItems : List MenuItem := [itemResume, itemSave, itemQuit]

/-- An open menu over the test items, as the `menu.rs` tests set up. -/
def menuOpen3 : Menu :=
  { state := .Open, cursor := 0, items := testItems,
    transition_start := 0, dirty := false, hold_starts := [] }

/-- C6: cursor navigation on an Open menu with `n` items is cyclic —
`n` consecutive `move_down()` (resp. `move_up()`) calls return the
cursor to its starting value; `move_up` from index 0 goes to `n - 1`
and `move_down` from `n - 1` goes to 0; and with an empty item list or
in any state other than Open, both are no-ops. -/
theorem menu_cursor_cyclic (m : Menu) :
    (m.state = .Open → m.cursor < m.items.length →
      (Menu.move_down^[m.items.length] m).cursor = m.cursor ∧
      (Menu.move_up^[m.items.length] m).cursor = m.cursor) ∧
    (m.state = .Open → ¬ m.items.isEmpty →
      (m.cursor = 0 → (m.move_up).cursor = m.items.length - 1) ∧
      (m.cursor = m.items.length - 1 → (m.move_down).cursor = 0)) ∧
    (m.items.isEmpty → m.move_up = m ∧ m.move_down = m) ∧
    (m.state ≠ .Open → m.move_up = m ∧ m.move_down = m) := by
  refine ⟨?_, ?_, ?_, ?_⟩
  · intro h hc
    have hne : ¬ m.items.isEmpty := by
      simp [List.isEmpty_iff]
      intro hnil
      rw [hnil] at hc
      simp at hc
    constructor
    · rw [(Menu.move_down_iterate m h hne hc _).2.2, Nat.add_mod_right,
        Nat.mod_eq_of_lt hc]
    · rw [(Menu.move_up_iterate m h hne hc _).2.2,
        Nat.add_mul_mod_self_left, Nat.mod_eq_of_lt hc]
  · intro h hne
    have hn : 0 < m.items.length := by
      cases hl : m.items with
      | nil => simp [hl] at hne
      | cons a l => simp [hl]
    constructor
    · intro h0
      rw [Menu.move_up_cursor m h hne (by omega), h0, Nat.zero_add,
        Nat.mod_eq_of_lt (by omega)]
    · intro hlast
      rw [Menu.move_down_cursor m h hne, hlast]
      have : m.items.length - 1 + 1 = m.items.length := by omega
      rw [this, Nat.mod_self]
  · intro he
    exact ⟨Menu.move_up_empty m he, Menu.move_down_empty m he⟩
  · intro h
    exact ⟨Menu.move_up_not_open m h, Menu.move_down_not_open m h⟩

/-- Witness for C6 at the concrete three-item open menu. -/
theorem menu_cursor_cyclic_witness :
    (Menu.move_down^[3] menuOpen3).cursor = 0 ∧
    (Menu.move_up^[3] menuOpen3).cursor = 0 :=
  (menu_cursor_cyclic menuOpen3).1 rfl (by decide)

namespace Menu

theorem execute_item_eq (m : Menu) (idx now : Nat) (hc : idx < m.items.length) :
    m.execute_item idx now =
      (resolveAction m.items[idx],
        { m with state := .Closing, transition_start := now, dirty := true }) := by
  unfold execute_item
  rw [List.getElem?_eq_getElem hc]

theorem select_open_eq (m : Menu) (now : Nat) (h : m.state = .Open)
    (hc : m.cursor < m.items.length) :
    m.select now =
      if m.items[m.cursor].confirm then
        (none, { m with state := .Confirming m.cursor, dirty := true })
      else m.execute_item m.cursor now := by
  have hne : m.items.isEmpty = false := by
    cases hl : m.items with
    | nil => rw [hl] at hc; simp at hc
    | cons a l => simp [hl]
  unfold select
  rw [hne, h, List.getElem?_eq_getElem hc]
  simp

theorem select_confirming_eq (m : Menu) (now i : Nat)
    (h : m.state = .Confirming i) (hne : m.items.isEmpty = false) :
    m.select now = m.execute_item i now := by
  unfold select
  rw [hne, h]
  simp

end Menu

/-- C1: on an Open menu with a valid cursor, selecting a confirm-gated
item returns no action and moves to `Confirming{item_idx = cursor}`, and
a second `select()` from Confirming — with the cursor set to any value —
returns the armed item's resolved action; selecting a non-confirm item
returns its resolved action on the first call. -/
theorem menu_confirm_gating (m : Menu) (now now2 c2 : Nat)
    (h_open : m.state = .Open) (hc : m.cursor < m.items.length) :
    (m.items[m.cursor].confirm = true →
      (m.select now).1 = none ∧
      (m.select now).2.state = .Confirming m.cursor ∧
      (({ (m.select now).2 with cursor := c2 }).select now2).1 =
        Menu.resolveAction m.items[m.cursor]) ∧
    (m.items[m.cursor].confirm = false →
      (m.select now).1 = Menu.resolveAction m.items[m.cursor]) := by
  have hne : m.items.isEmpty = false := by
    cases hl : m.items with
    | nil => rw [hl] at hc; simp at hc
    | cons a l => simp [hl]
  rw [Menu.select_open_eq m now h_open hc]
  constructor
  · intro hconf
    rw [if_pos hconf]
    refine ⟨rfl, rfl, ?_⟩
    dsimp only
    rw [Menu.select_confirming_eq _ now2 m.cursor rfl (by exact hne),
      Menu.execute_item_eq _ _ _ (by exact hc)]
  · intro hconf
    rw [if_neg (by simp [hconf]), Menu.execute_item_eq m m.cursor now hc]

/-- Witness for C1: the `menu.rs` test scenario — cursor on the
confirm-gated Quit item (two selects needed) and on the plain Resume
item (one select suffices). -/
theorem menu_confirm_gating_witness :
    ((({ menuOpen3 with cursor := 2 } : Menu).select 5).1 = none ∧
      (({ menuOpen3 with cursor := 2 } : Menu).select 5).2.state = .Confirming 2 ∧
      (({ (({ menuOpen3 with cursor := 2 } : Menu).select 5).2 with
          cursor := 0 }).select 7).1 = some (MenuAction.RetroArch "QUIT")) ∧
    ((menuOpen3.select 5).1 = some MenuAction.Dismiss) := by
  have h2 := menu_confirm_gating { menuOpen3 with cursor := 2 } 5 7 0 rfl (by decide)
  have h0 := menu_confirm_gating menuOpen3 5 7 0 rfl (by decide)
  exact ⟨h2.1 (by decide), h0.2 (by decide)⟩

/-- C4: `PopupQueue::tick` advances only the head popup — popups behind
the head are untouched; when the ticked head is Done it is removed and
the new head's creation timestamp is reset to `now`, so the new head's
next tick within the slide-in window reports SlideIn (its clock restarts
from zero instead of inheriting the old head's elapsed time). -/
theorem popup_queue_tick_head (q : PopupQueue) (now now2 : Nat) :
    (q.queue = [] → q.tick now = q) ∧
    (∀ p rest, q.queue = p :: rest →
      (¬ (p.tick now).is_done = true → (q.tick now).queue = (p.tick now) :: rest) ∧
      ((p.tick now).is_done = true → rest = [] → (q.tick now).queue = []) ∧
      (∀ nx rest2, (p.tick now).is_done = true → rest = nx :: rest2 →
        (q.tick now).queue = { nx with started := now } :: rest2 ∧
        (({ nx with started := now } : Popup).forced_hold = false →
          now2 - now < SLIDE_IN_MS →
          (({ nx with started := now } : Popup).tick now2).phase = .SlideIn))) := by
  constructor
  · intro hq
    unfold PopupQueue.tick
    rw [hq]
  · intro p rest hq
    refine ⟨?_, ?_, ?_⟩
    · intro hnd
      unfold PopupQueue.tick
      rw [hq]
      simp [hnd]
    · intro hd hrest
      unfold PopupQueue.tick
      rw [hq, hrest]
      simp [hd]
    · intro nx rest2 hd hrest
      constructor
      · unfold PopupQueue.tick
        rw [hq, hrest]
        simp [hd]
      · intro hforce hwin
        have hf : nx.forced_hold = false := hforce
        have hph : Popup.phaseOf (now2 - now) = .SlideIn := by
          unfold Popup.phaseOf
          rw [if_pos hwin]
        simp [Popup.tick, hf, hph]

/-- Witness for C4: a two-popup queue whose head has finished its
fade-out; ticking evicts the head and restarts the second popup. -/
theorem popup_queue_tick_head_witness :
    ((PopupQueue.mk [Popup.new "A" "a" 0, Popup.new "B" "b" 100]).tick 5000).queue =
      [{ Popup.new "B" "b" 100 with started := 5000 }] ∧
    ((({ Popup.new "B" "b" 100 with started := 5000 } : Popup).tick 5100).phase =
      Phase.SlideIn) := by
  have h := popup_queue_tick_head
    (PopupQueue.mk [Popup.new "A" "a" 0, Popup.new "B" "b" 100]) 5000 5100
  have h2 := (h.2 (Popup.new "A" "a" 0) [Popup.new "B" "b" 100] rfl).2.2
    (Popup.new "B" "b" 100) [] (by decide) rfl
  exact ⟨h2.1, h2.2 (by decide) (by decide)⟩

/-- C7: the force-hold override pins a popup's phase to Hold: after
`force_hold()` the phase is Hold, `opacity()` is 1 and `slide_offset()`
is 0, and this persists through any later `tick()` call at any time. -/
theorem popup_force_hold_pins (p : Popup) (now now2 now3 : Nat) :
    (p.force_hold).phase = .Hold ∧
    (p.force_hold).opacity now = 1 ∧
    (p.force_hold).slide_offset now = 0 ∧
    ((p.force_hold).tick now2).phase = .Hold ∧
    ((p.force_hold).tick now2).opacity now3 = 1 ∧
    ((p.force_hold).tick now2).slide_offset now3 = 0 := by
  unfold Popup.force_hold Popup.tick Popup.opacity Popup.slide_offset
  simp

/-- The opacity of a phase-consistent popup, as a pure function of the
elapsed time (the phase being the one `Popup::tick` computes). -/
def opacityAt (e : Nat) : ℚ :=
  match Popup.phaseOf e with
  | .SlideIn => min ((e : ℚ) / (SLIDE_IN_MS : ℚ)) 1
  | .Hold => 1
  | .FadeOut =>
      1 - min (((e - (SLIDE_IN_MS + HOLD_MS) : Nat) : ℚ) / (FADE_OUT_MS : ℚ)) 1
  | .Done => 0

theorem phaseOf_iff (e : Nat) :
    (Popup.phaseOf e = .SlideIn ↔ e < 300) ∧
    (Popup.phaseOf e = .Hold ↔ 300 ≤ e ∧ e < 4300) ∧
    (Popup.phaseOf e = .FadeOut ↔ 4300 ≤ e ∧ e < 4800) ∧
    (Popup.phaseOf e = .Done ↔ 4800 ≤ e) := by
  by_cases h1 : e < 300
  · simp [Popup.phaseOf, SLIDE_IN_MS, HOLD_MS, FADE_OUT_MS, h1] <;> omega
  · by_cases h2 : e < 4300
    · simp [Popup.phaseOf, SLIDE_IN_MS, HOLD_MS, FADE_OUT_MS, h1, h2] <;> omega
    · by_cases h3 : e < 4800
      · simp [Popup.phaseOf, SLIDE_IN_MS, HOLD_MS, FADE_OUT_MS, h1, h2, h3] <;>
          omega
      · simp [Popup.phaseOf, SLIDE_IN_MS, HOLD_MS, FADE_OUT_MS, h1, h2, h3] <;>
          omega

theorem opacity_tick_eq (p : Popup) (now : Nat)
    (hf : p.forced_hold = false) :
    (p.tick now).opacity now = opacityAt (now - p.started) := by
  unfold Popup.tick Popup.opacity opacityAt
  simp only [hf, Bool.false_eq_true, if_false]

/-- C5: for a phase-consistent (just-ticked, not force-held) popup,
opacity equals the pure elapsed-time function `opacityAt`, which is
non-decreasing throughout the SlideIn window, constantly 1 in Hold,
non-increasing throughout the FadeOut window, exactly 0 at and after
Done, and always within `[0, 1]`. -/
theorem popup_opacity_shape (p : Popup) (now e e2 : Nat) :
    (p.forced_hold = false →
      (p.tick now).opacity now = opacityAt (now - p.started)) ∧
    (e ≤ e2 → Popup.phaseOf e = .SlideIn → Popup.phaseOf e2 = .SlideIn →
      opacityAt e ≤ opacityAt e2) ∧
    (Popup.phaseOf e = .Hold → opacityAt e = 1) ∧
    (e ≤ e2 → Popup.phaseOf e = .FadeOut → Popup.phaseOf e2 = .FadeOut →
      opacityAt e2 ≤ opacityAt e) ∧
    (Popup.phaseOf e = .Done → opacityAt e = 0) ∧
    (0 ≤ opacityAt e ∧ opacityAt e ≤ 1) := by
  refine ⟨opacity_tick_eq p now, ?_, ?_, ?_, ?_, ?_⟩
  · intro hle h1 h2
    unfold opacityAt
    rw [h1, h2]
    dsimp only
    refine min_le_min ?_ le_rfl
    gcongr
  · intro h1
    unfold opacityAt
    rw [h1]
  · intro hle h1 h2
    unfold opacityAt
    rw [h1, h2]
    dsimp only
    have hf : ((e - (SLIDE_IN_MS + HOLD_MS) : Nat) : ℚ) ≤
        ((e2 - (SLIDE_IN_MS + HOLD_MS) : Nat) : ℚ) := by
      exact Nat.cast_le.mpr (Nat.sub_le_sub_right hle (SLIDE_IN_MS + HOLD_MS))
    have hmin : min (((e - (SLIDE_IN_MS + HOLD_MS) : Nat) : ℚ) / (FADE_OUT_MS : ℚ)) 1 ≤
        min (((e2 - (SLIDE_IN_MS + HOLD_MS) : Nat) : ℚ) / (FADE_OUT_MS : ℚ)) 1 := by
      refine min_le_min ?_ le_rfl
      exact (div_le_div_iff_of_pos_right (by norm_num [FADE_OUT_MS])).mpr hf
    linarith
  · intro h1
    unfold opacityAt
    rw [h1]
  · unfold opacityAt
    cases h : Popup.phaseOf e
    all_goals dsimp only
    · constructor
      · positivity
      · exact min_le_right _ _
    · exact ⟨zero_le_one, le_refl _⟩
    · have hnn : (0 : ℚ) ≤
          min (((e - (SLIDE_IN_MS + HOLD_MS) : Nat) : ℚ) / (FADE_OUT_MS : ℚ)) 1 := by
        positivity
      have hub : min (((e - (SLIDE_IN_MS + HOLD_MS) : Nat) : ℚ) / (FADE_OUT_MS : ℚ)) 1 ≤ 1 :=
        min_le_right _ _
      constructor <;> linarith
    · exact ⟨le_refl _, zero_le_one⟩

/-- Witness for C5 at concrete elapsed times in each phase window. -/
theorem popup_opacity_shape_witness :
    ((Popup.new "t" "d" 0).tick 100).opacity 100 = opacityAt 100 ∧
    opacityAt 100 ≤ opacityAt 200 ∧
    opacityAt 1000 = 1 ∧
    opacityAt 4700 ≤ opacityAt 4400 ∧
    opacityAt 5000 = 0 ∧
    (0 ≤ opacityAt 100 ∧ opacityAt 100 ≤ 1) := by
  have h1 := popup_opacity_shape (Popup.new "t" "d" 0) 100 100 200
  have h2 := popup_opacity_shape (Popup.new "t" "d" 0) 100 1000 1000
  have h3 := popup_opacity_shape (Popup.new "t" "d" 0) 100 4400 4700
  have h4 := popup_opacity_shape (Popup.new "t" "d" 0) 100 5000 5000
  refine ⟨h1.1 rfl, ?_, ?_, ?_, ?_, ?_⟩
  · exact h1.2.1 (by omega) ((phaseOf_iff 100).1.mpr (by omega))
      ((phaseOf_iff 200).1.mpr (by omega))
  · exact h2.2.2.1 ((phaseOf_iff 1000).2.1.mpr (by omega))
  · exact h3.2.2.2.1 (by omega) ((phaseOf_iff 4400).2.2.1.mpr (by omega))
      ((phaseOf_iff 4700).2.2.1.mpr (by omega))
  · exact h4.2.2.2.2.1 ((phaseOf_iff 5000).2.2.2.mpr (by omega))
  · exact h1.2.2.2.2.2

namespace Menu

theorem lookup_pair (a b : String) (v : Nat) (l : List (String × Nat)) :
    List.lookup a ((b, v) :: l) = if a = b then some v else List.lookup a l := by
  by_cases h : a = b
  · simp [List.lookup, h]
  · have hb : (a == b) = false := beq_eq_false_iff_ne.mpr h
    simp [List.lookup, hb, h]

theorem lookup_filter_self (l : List (String × Nat)) (b : String) :
    (l.filter (fun p => p.1 ≠ b)).lookup b = none := by
  induction l with
  | nil => rfl
  | cons p l ih =>
      obtain ⟨k, v⟩ := p
      by_cases h : k = b
      · subst h
        simpa [List.filter_cons] using ih
      · have hk : (decide ((k, v).1 ≠ b)) = true := by simp [h]
        rw [List.filter_cons, if_pos hk, lookup_pair,
          if_neg (fun hh => h hh.symm)]
        exact ih

/-- An item can fire at `now`: its hold binding has a recorded start
whose elapsed time reached the item's threshold. -/
def fireAt (hs : List (String × Nat)) (now : Nat) (it : MenuItem) : Prop :=
  ∃ b s, it.hold_bind = some b ∧ hs.lookup b = some s ∧ now - s ≥ it.hold_ms

theorem findHold_none_of (hs : List (String × Nat)) (now : Nat) :
    ∀ (items : List MenuItem) (k : Nat),
      (∀ (j : Nat) (it : MenuItem), items[j]? = some it → ¬ fireAt hs now it) →
      findHold hs now items k = none := by
  intro items
  induction items with
  | nil => intro k h; rfl
  | cons it0 rest ih =>
      intro k h
      unfold findHold
      have hrest : ∀ (j : Nat) (it : MenuItem), rest[j]? = some it → ¬ fireAt hs now it := by
        intro j it hj
        exact h (j + 1) it (by simpa using hj)
      cases hb0 : it0.hold_bind with
      | none =>
          dsimp only
          exact ih (k + 1) hrest
      | some b0 =>
          dsimp only
          cases hl0 : hs.lookup b0 with
          | none =>
              dsimp only
              exact ih (k + 1) hrest
          | some s0 =>
              dsimp only
              have hno := h 0 it0 (by simp)
              have hlt : ¬ now - s0 ≥ it0.hold_ms := by
                intro hge
                exact hno ⟨b0, s0, hb0, hl0, hge⟩
              rw [if_neg hlt]
              exact ih (k + 1) hrest

theorem findHold_fires (hs : List (String × Nat)) (now : Nat) :
    ∀ (items : List MenuItem) (k i : Nat) (it : MenuItem) (b : String),
      items[i]? = some it → it.hold_bind = some b →
      (∃ s, hs.lookup b = some s ∧ now - s ≥ it.hold_ms) →
      (∀ (j : Nat) (it2 : MenuItem), j < i → items[j]? = some it2 → ¬ fireAt hs now it2) →
      findHold hs now items k = some (k + i, b) := by
  intro items
  induction items with
  | nil => intro k i it b hi; simp at hi
  | cons it0 rest ih =>
      intro k i it b hi hb hs0 hbefore
      cases i with
      | zero =>
          simp at hi
          subst hi
          obtain ⟨s, hls, hge⟩ := hs0
          unfold findHold
          rw [hb]
          dsimp only
          rw [hls]
          dsimp only
          rw [if_pos hge]
          simp
      | succ i =>
          simp at hi
          have hrec := ih (k + 1) i it b (by simpa using hi) hb hs0
            (by
              intro j it2 hj hjt
              exact hbefore (j + 1) it2 (by omega) (by simpa using hjt))
          have hno := hbefore 0 it0 (by omega) (by simp)
          unfold findHold
          cases hb0 : it0.hold_bind with
          | none =>
              dsimp only
              rw [hrec]
              congr 2
              omega
          | some b0 =>
              dsimp only
              cases hl0 : hs.lookup b0 with
              | none =>
                  dsimp only
                  rw [hrec]
                  congr 2
                  omega
              | some s0 =>
                  dsimp only
                  have hlt : ¬ now - s0 ≥ it0.hold_ms := by
                    intro hge
                    exact hno ⟨b0, s0, hb0, hl0, hge⟩
                  rw [if_neg hlt, hrec]
                  congr 2
                  omega

theorem findHold_first (hs : List (String × Nat)) (now : Nat) :
    ∀ (items : List MenuItem) (k j : Nat) (b : String),
      findHold hs now items k = some (j, b) →
      ∃ i, j = k + i ∧ ∃ it, items[i]? = some it ∧ it.hold_bind = some b ∧
        (∃ s, hs.lookup b = some s ∧ now - s ≥ it.hold_ms) ∧
        ∀ (i2 : Nat) (it2 : MenuItem), i2 < i → items[i2]? = some it2 →
          ¬ fireAt hs now it2 := by
  intro items
  induction items with
  | nil => intro k j b h; simp [findHold] at h
  | cons it0 rest ih =>
      intro k j b h
      unfold findHold at h
      cases hb0 : it0.hold_bind with
      | none =>
          rw [hb0] at h
          dsimp only at h
          obtain ⟨i, hji, it, hit, hbit, hfire, hbef⟩ := ih (k + 1) j b h
          refine ⟨i + 1, by omega, it, by simpa using hit, hbit, hfire, ?_⟩
          intro i2 it2 hi2 hit2
          cases i2 with
          | zero =>
              simp at hit2
              subst hit2
              rintro ⟨b2, s2, hbb, _, _⟩
              rw [hb0] at hbb
              cases hbb
          | succ i2 =>
              exact hbef i2 it2 (by omega) (by simpa using hit2)
      | some b0 =>
          rw [hb0] at h
          dsimp only at h
          cases hl0 : hs.lookup b0 with
          | none =>
              rw [hl0] at h
              dsimp only at h
              obtain ⟨i, hji, it, hit, hbit, hfire, hbef⟩ := ih (k + 1) j b h
              refine ⟨i + 1, by omega, it, by simpa using hit, hbit, hfire, ?_⟩
              intro i2 it2 hi2 hit2
              cases i2 with
              | zero =>
                  simp at hit2
                  subst hit2
                  rintro ⟨b2, s2, hbb, hlk, _⟩
                  rw [hb0] at hbb
                  cases hbb
                  rw [hl0] at hlk
                  cases hlk
              | succ i2 =>
                  exact hbef i2 it2 (by omega) (by simpa using hit2)
          | some s0 =>
              rw [hl0] at h
              dsimp only at h
              by_cases hge : now - s0 ≥ it0.hold_ms
              · rw [if_pos hge] at h
                obtain ⟨hj, hb⟩ : j = k ∧ b = b0 := by
                  cases h
                  exact ⟨rfl, rfl⟩
                subst hj
                subst hb
                exact ⟨0, by omega, it0, by simp, hb0, ⟨s0, hl0, hge⟩, by omega⟩
              · rw [if_neg hge] at h
                obtain ⟨i, hji, it, hit, hbit, hfire, hbef⟩ := ih (k + 1) j b h
                refine ⟨i + 1, by omega, it, by simpa using hit, hbit, hfire, ?_⟩
                intro i2 it2 hi2 hit2
                cases i2 with
                | zero =>
                    simp at hit2
                    subst hit2
                    rintro ⟨b2, s2, hbb, hlk, hg2⟩
                    rw [hb0] at hbb
                    cases hbb
                    rw [hl0] at hlk
                    cases hlk
                    exact hge hg2
                | succ i2 =>
                    exact hbef i2 it2 (by omega) (by simpa using hit2)

end Menu

namespace Menu

theorem check_holds_openish (m : Menu) (now : Nat) (h : openish m.state = true) :
    m.check_holds now =
      match findHold m.hold_starts now m.items 0 with
      | some (idx, b) =>
          ({ m with hold_starts :=
              m.hold_starts.filter (fun p => p.1 ≠ b) } : Menu).execute_item idx now
      | none => (none, m) := by
  unfold check_holds
  rw [if_pos h]

theorem check_holds_not_openish (m : Menu) (now : Nat)
    (h : openish m.state = false) :
    m.check_holds now = (none, { m with hold_starts := [] }) := by
  unfold check_holds
  simp [h]

theorem check_holds_after_execute (m : Menu) (idx now now2 : Nat) :
    ((m.execute_item idx now).2.check_holds now2).1 = none := by
  unfold execute_item
  dsimp only
  rw [check_holds_not_openish
    ({ m with state := .Closing, transition_start := now, dirty := true })
    now2 rfl]

theorem hold_start_empty (m : Menu) (b : String) (t0 : Nat)
    (h : openish m.state = true) (hhs : m.hold_starts = []) :
    m.hold_start b t0 = { m with hold_starts := [(b, t0)], dirty := true } := by
  unfold hold_start
  rw [if_pos h, hhs]
  simp [List.lookup]

end Menu

/-- C2: in Open/Confirming with no prior timers, after `hold_start(b)`
at time `t0` for the unique item bound to `b`: every `check_holds`
strictly before `t0 + hold_ms` returns no action and leaves the menu
(timer included) unchanged; any `check_holds` at or after `t0 + hold_ms`
returns that item's action, removes `b`'s timer, and a subsequent
`check_holds` without a fresh `hold_start` returns no action. In
general, a single `check_holds` resolves at most one hold: exactly the
first item in list order whose bound button's timer has reached its
duration, and only that button's timer is removed. -/
theorem menu_hold_fire_semantics
    (m : Menu) (b : String) (t0 idx : Nat) (it : MenuItem)
    (hstate : Menu.openish m.state = true)
    (hhs : m.hold_starts = [])
    (hit : m.items[idx]? = some it)
    (hb : it.hold_bind = some b)
    (huniq : ∀ (j : Nat) (it2 : MenuItem), m.items[j]? = some it2 →
      it2.hold_bind = some b → j = idx) :
    (∀ now : Nat, t0 ≤ now → now < t0 + it.hold_ms →
      (m.hold_start b t0).check_holds now = (none, m.hold_start b t0)) ∧
    (∀ now : Nat, t0 + it.hold_ms ≤ now →
      ((m.hold_start b t0).check_holds now).1 = Menu.resolveAction it ∧
      ((((m.hold_start b t0).check_holds now).2.hold_starts).lookup b) = none ∧
      ∀ now2 : Nat,
        (((m.hold_start b t0).check_holds now).2.check_holds now2).1 = none) ∧
    (∀ (m2 : Menu) (now2 j2 : Nat) (b2 : String),
      Menu.openish m2.state = true →
      Menu.findHold m2.hold_starts now2 m2.items 0 = some (j2, b2) →
      m2.check_holds now2 =
        ({ m2 with hold_starts :=
            m2.hold_starts.filter (fun p => p.1 ≠ b2) } : Menu).execute_item j2 now2 ∧
      ∃ it2, m2.items[j2]? = some it2 ∧ it2.hold_bind = some b2 ∧
        (∃ s, (m2.hold_starts).lookup b2 = some s ∧ now2 - s ≥ it2.hold_ms) ∧
        ∀ (i2 : Nat) (it3 : MenuItem), i2 < j2 → m2.items[i2]? = some it3 →
          ¬ Menu.fireAt m2.hold_starts now2 it3) := by
  have hm1 : m.hold_start b t0 = { m with hold_starts := [(b, t0)], dirty := true } :=
    Menu.hold_start_empty m b t0 hstate hhs
  refine ⟨?_, ?_, ?_⟩
  · intro now h0 h1
    rw [hm1, Menu.check_holds_openish _ now (by exact hstate)]
    have hfn : Menu.findHold [(b, t0)] now m.items 0 = none := by
      apply Menu.findHold_none_of
      rintro j it2 hj ⟨b2, s2, hb2, hlk, hge⟩
      rw [Menu.lookup_pair] at hlk
      by_cases hbb : b2 = b
      · rw [if_pos hbb] at hlk
        cases hlk
        have hj_idx := huniq j it2 hj (hbb ▸ hb2)
        subst hj_idx
        rw [hj] at hit
        cases hit
        omega
      · rw [if_neg hbb] at hlk
        cases hlk
    dsimp only
    rw [hfn]
  · intro now hge2
    rw [hm1, Menu.check_holds_openish _ now (by exact hstate)]
    have hff : Menu.findHold [(b, t0)] now m.items 0 = some (idx, b) := by
      have := Menu.findHold_fires [(b, t0)] now m.items 0 idx it b hit hb
        ⟨t0, by rw [Menu.lookup_pair, if_pos rfl], by omega⟩
        (by
          rintro j it2 hj hjt ⟨b2, s2, hb2, hlk, hge3⟩
          rw [Menu.lookup_pair] at hlk
          by_cases hbb : b2 = b
          · rw [if_pos hbb] at hlk
            cases hlk
            have hj_idx := huniq j it2 hjt (hbb ▸ hb2)
            omega
          · rw [if_neg hbb] at hlk
            cases hlk)
      simpa using this
    dsimp only
    rw [hff]
    dsimp only
    refine ⟨?_, ?_, ?_⟩
    · unfold Menu.execute_item
      dsimp only
      rw [hit]
    · exact Menu.lookup_filter_self [(b, t0)] b
    · intro now2
      exact Menu.check_holds_after_execute _ idx now now2
  · intro m2 now2 j2 b2 hop hf
    refine ⟨by rw [Menu.check_holds_openish m2 now2 hop, hf], ?_⟩
    obtain ⟨i, hji, it2, hiti, hbit, hfire, hbef⟩ :=
      Menu.findHold_first m2.hold_starts now2 m2.items 0 j2 b2 hf
    have hij : i = j2 := by omega
    subst hij
    exact ⟨it2, hiti, hbit, hfire, hbef⟩

/-- Witness for C2: holding "y" on the test menu (Save State item,
1500 ms threshold) from t=100 — no fire at t=1599, fire at t=1600,
no refire at t=1700. -/
theorem menu_hold_fire_semantics_witness :
    ((menuOpen3.hold_start "y" 100).check_holds 1599 =
      (none, menuOpen3.hold_start "y" 100)) ∧
    (((menuOpen3.hold_start "y" 100).check_holds 1600).1 =
      some (MenuAction.RetroArch "SAVE_STATE")) ∧
    ((((menuOpen3.hold_start "y" 100).check_holds 1600).2.check_holds 1700).1 =
      none) := by
  have huniq : ∀ (j : Nat) (it2 : MenuItem), menuOpen3.items[j]? = some it2 →
      it2.hold_bind = some "y" → j = 1 := by
    intro j it2 hj hb2
    have hjlt : j < 3 := by
      by_contra hge
      rw [List.getElem?_eq_none (by simp [menuOpen3, testItems]; omega)] at hj
      exact Option.noConfusion hj
    interval_cases j <;>
      simp_all [menuOpen3, testItems, itemResume, itemSave, itemQuit]
    all_goals subst hj
    all_goals exact absurd hb2 (by decide)
  have h := menu_hold_fire_semantics menuOpen3 "y" 100 1 itemSave rfl rfl
    (by decide) rfl huniq
  have hb1 := h.2.1 1600 (by decide)
  exact ⟨h.1 1599 (by decide) (by decide), hb1.1.trans (by decide), hb1.2.2 1700⟩

namespace Menu

theorem move_up_hold_starts (m : Menu) : (m.move_up).hold_starts = m.hold_starts := by
  obtain ⟨s, c, it, t, d, hs⟩ := m
  cases s <;> (dsimp only [move_up]; try rfl) <;> split <;> rfl

theorem move_down_hold_starts (m : Menu) : (m.move_down).hold_starts = m.hold_starts := by
  obtain ⟨s, c, it, t, d, hs⟩ := m
  cases s <;> (dsimp only [move_down]; try rfl) <;> split <;> rfl

theorem select_hold_starts (m : Menu) (now : Nat) :
    (m.select now).2.hold_starts = m.hold_starts := by
  unfold select execute_item
  repeat' split
  all_goals rfl

theorem select_state_cases (m : Menu) (now : Nat) :
    (m.select now).2.state = m.state ∨
    (∃ i, (m.select now).2.state = .Confirming i) ∨
    (m.select now).2.state = .Closing := by
  unfold select execute_item
  repeat' split
  all_goals simp

theorem activate_bind_hold_starts (m : Menu) (b : String) (now : Nat) :
    (m.activate_bind b now).2.hold_starts = m.hold_starts := by
  unfold activate_bind execute_item
  repeat' split
  all_goals rfl

theorem activate_bind_state_cases (m : Menu) (b : String) (now : Nat) :
    (m.activate_bind b now).2.state = m.state ∨
    (∃ i, (m.activate_bind b now).2.state = .Confirming i) ∨
    (m.activate_bind b now).2.state = .Closing := by
  unfold activate_bind execute_item
  repeat' split
  all_goals simp

theorem hold_start_state (m : Menu) (b : String) (now : Nat) :
    (m.hold_start b now).state = m.state := by
  unfold hold_start
  split <;> rfl

end Menu

/-- One decoded command dispatched into the menu, as in the host tick
loop (`main.rs`): each variant invokes the corresponding `Menu` method. -/
inductive MenuCmd where
  | toggle
  | moveUp
  | moveDown
  | select
  | back
  | activateBind (button : String)
  | holdStart (button : String)
  | holdRelease (button : String)
deriving DecidableEq, Repr

/-- Dispatch one command at time `now` (actions are discarded: only the
menu state evolution matters here). -/
def stepCmd (m : Menu) (c : MenuCmd) (now : Nat) : Menu :=
  match c with
  | .toggle => m.toggle now
  | .moveUp => m.move_up
  | .moveDown => m.move_down
  | .select => (m.select now).2
  | .back => m.back now
  | .activateBind b => (m.activate_bind b now).2
  | .holdStart b => m.hold_start b now
  | .holdRelease b => m.hold_release b

/-- Drain a list of timestamped commands in order. -/
def runCmds (m : Menu) (cs : List (MenuCmd × Nat)) : Menu :=
  cs.foldl (fun acc p => stepCmd acc p.1 p.2) m

/-- One host frame: drain the pending commands, then `tick()`, then
`check_holds()` — "check_holds() is called every tick". -/
def frame (m : Menu) (cs : List (MenuCmd × Nat)) (now : Nat) : Menu :=
  (((runCmds m cs).tick now).check_holds now).2

/-- No timer survives outside the Open/Confirming superstate: in Closed
or Opening the hold map is empty — so a session entering Open (only
possible from Opening, via `tick`) starts with no timers, and no timer
recorded in an earlier Open session can fire in a later one. -/
def noStaleTimers (m : Menu) : Prop :=
  (m.state = .Closed ∨ m.state = .Opening) → m.hold_starts = []

theorem stepCmd_preserves_noStale (m : Menu) (c : MenuCmd) (now : Nat)
    (h : noStaleTimers m) : noStaleTimers (stepCmd m c now) := by
  cases c with
  | toggle =>
      obtain ⟨s, cur, it, t, d, hs⟩ := m
      cases s <;> simp_all [stepCmd, Menu.toggle, noStaleTimers]
  | moveUp =>
      intro hC
      simp only [stepCmd] at hC ⊢
      rw [Menu.move_up_state] at hC
      rw [Menu.move_up_hold_starts]
      exact h hC
  | moveDown =>
      intro hC
      simp only [stepCmd] at hC ⊢
      rw [Menu.move_down_state] at hC
      rw [Menu.move_down_hold_starts]
      exact h hC
  | select =>
      intro hC
      simp only [stepCmd] at hC ⊢
      rw [Menu.select_hold_starts]
      rcases Menu.select_state_cases m now with hs | ⟨i, hs⟩ | hs
      · rw [hs] at hC
        exact h hC
      · rw [hs] at hC
        rcases hC with hC | hC <;> cases hC
      · rw [hs] at hC
        rcases hC with hC | hC <;> cases hC
  | back =>
      obtain ⟨s, cur, it, t, d, hs⟩ := m
      cases s <;> simp_all [stepCmd, Menu.back, noStaleTimers]
  | activateBind b =>
      intro hC
      simp only [stepCmd] at hC ⊢
      rw [Menu.activate_bind_hold_starts]
      rcases Menu.activate_bind_state_cases m b now with hs | ⟨i, hs⟩ | hs
      · rw [hs] at hC
        exact h hC
      · rw [hs] at hC
        rcases hC with hC | hC <;> cases hC
      · rw [hs] at hC
        rcases hC with hC | hC <;> cases hC
  | holdStart b =>
      intro hC
      simp only [stepCmd] at hC ⊢
      rw [Menu.hold_start_state] at hC
      have hop : Menu.openish m.state = false := by
        rcases hC with hC | hC <;> rw [hC] <;> rfl
      rw [Menu.hold_start, if_neg (by rw [hop]; exact Bool.false_ne_true)]
      exact h hC
  | holdRelease b =>
      intro hC
      simp only [stepCmd] at hC ⊢
      rw [Menu.hold_release] at hC ⊢
      dsimp only at hC ⊢
      rw [h hC]
      rfl

theorem check_holds_noStale (m : Menu) (now : Nat) :
    noStaleTimers ((m.check_holds now).2) := by
  by_cases hop : Menu.openish m.state = true
  · rw [Menu.check_holds_openish m now hop]
    cases hf : Menu.findHold m.hold_starts now m.items 0 with
    | none =>
        intro hC
        dsimp only at hC
        rcases hC with hC | hC <;> rw [hC] at hop <;> cases hop
    | some p =>
        obtain ⟨j, b⟩ := p
        dsimp only
        unfold Menu.execute_item
        intro hC
        dsimp only at hC
        rcases hC with hC | hC <;> cases hC
  · rw [Menu.check_holds_not_openish m now (by
      cases hb : Menu.openish m.state
      · rfl
      · exact absurd hb hop)]
    intro hC
    rfl

/-- C3: hold-timer clearing — a button's recorded timer is removed by
`hold_release`, by the successful firing of that button's hold, and by
any `check_holds` run outside Open/Confirming (which clears the whole
map); every command preserves, and every frame (commands, then `tick`,
then `check_holds`) re-establishes, the no-stale-timers invariant, so a
timer recorded in one Open session can never survive into a later Open
session when `check_holds` runs every tick. -/
theorem menu_hold_timer_clearing :
    (∀ (m : Menu) (b : String),
      (((m.hold_release b).hold_starts).lookup b) = none) ∧
    (∀ (m : Menu) (now j : Nat) (b : String),
      Menu.openish m.state = true →
      Menu.findHold m.hold_starts now m.items 0 = some (j, b) →
      ((((m.check_holds now).2).hold_starts).lookup b) = none) ∧
    (∀ (m : Menu) (now : Nat), Menu.openish m.state = false →
      ((m.check_holds now).2).hold_starts = []) ∧
    (∀ (m : Menu) (c : MenuCmd) (now : Nat),
      noStaleTimers m → noStaleTimers (stepCmd m c now)) ∧
    (∀ (m : Menu) (cs : List (MenuCmd × Nat)) (now : Nat),
      noStaleTimers (frame m cs now)) := by
  refine ⟨?_, ?_, ?_, stepCmd_preserves_noStale, ?_⟩
  · intro m b
    exact Menu.lookup_filter_self m.hold_starts b
  · intro m now j b hop hf
    rw [Menu.check_holds_openish m now hop, hf]
    dsimp only
    unfold Menu.execute_item
    dsimp only
    exact Menu.lookup_filter_self _ _
  · intro m now hop
    rw [Menu.check_holds_not_openish m now hop]
  · intro m cs now
    exact check_holds_noStale _ _

/-- A Closing menu with a leftover hold timer, for the C3 witness. -/
def menuClosingTimer : Menu :=
  { state := .Closing, cursor := 0, items := testItems,
    transition_start := 0, dirty := false, hold_starts := [("y", 5)] }

/-- Witness for C3: releasing a held button removes its timer, and a
`check_holds` on a Closing menu clears a leftover timer map. -/
theorem menu_hold_timer_clearing_witness :
    ((((menuOpen3.hold_start "y" 100).hold_release "y").hold_starts).lookup "y"
      = none) ∧
    ((menuClosingTimer.check_holds 10).2.hold_starts = []) :=
  ⟨menu_hold_timer_clearing.1 (menuOpen3.hold_start "y" 100) "y",
    menu_hold_timer_clearing.2.2.1 menuClosingTimer 10 rfl⟩

theorem measure_text_cons (w : Char → ℚ) (c : Char) (l : List Char) :
    measure_text w (c :: l) = w c + measure_text w l := by
  simp [measure_text]

theorem truncGo_no_trigger (w : Char → ℚ) (ew maxW : ℚ) :
    ∀ (rest : List Char) (wid : ℚ) (acc : List Char), acc ≠ [] →
      (∀ (i : Nat) (hi : i < rest.length),
        wid + measure_text w (rest.take i) + w (rest.get ⟨i, hi⟩) + ew ≤ maxW) →
      truncGo w ew maxW rest wid acc = acc ++ rest := by
  intro rest
  induction rest with
  | nil => intro wid acc hacc hcond; simp [truncGo]
  | cons ch r ih =>
      intro wid acc hacc hcond
      have h0 := hcond 0 (by simp)
      simp [measure_text] at h0
      unfold truncGo
      rw [if_neg (by
        rintro ⟨hgt, _⟩
        linarith)]
      rw [ih (wid + w ch) (acc ++ [ch]) (by simp) (by
        intro i hi
        have := hcond (i + 1) (by simpa using Nat.succ_lt_succ hi)
        simp only [List.take_succ_cons, measure_text_cons, List.get_cons_succ] at this
        linarith)]
      simp

theorem truncGo_trigger (w : Char → ℚ) (ew maxW : ℚ) :
    ∀ (rest : List Char) (k : Nat) (hk : k < rest.length) (wid : ℚ)
      (acc : List Char), acc ≠ [] →
      (∀ (i : Nat) (hi : i < rest.length), i < k →
        wid + measure_text w (rest.take i) + w (rest.get ⟨i, hi⟩) + ew ≤ maxW) →
      wid + measure_text w (rest.take k) + w (rest.get ⟨k, hk⟩) + ew > maxW →
      truncGo w ew maxW rest wid acc = acc ++ rest.take k ++ ['.', '.', '.'] := by
  intro rest
  induction rest with
  | nil => intro k hk; simp at hk
  | cons ch r ih =>
      intro k hk wid acc hacc hbef htrig
      cases k with
      | zero =>
          simp [measure_text] at htrig
          unfold truncGo
          rw [if_pos ⟨by linarith, hacc⟩]
          simp
      | succ k =>
          have h0 := hbef 0 (by simp) (by omega)
          simp [measure_text] at h0
          unfold truncGo
          rw [if_neg (by
            rintro ⟨hgt, _⟩
            linarith)]
          rw [ih k (by simpa using Nat.lt_of_succ_lt_succ hk) (wid + w ch)
            (acc ++ [ch]) (by simp)
            (by
              intro i hi hik
              have := hbef (i + 1) (by simpa using Nat.succ_lt_succ hi) (by omega)
              simp only [List.take_succ_cons, measure_text_cons,
                List.get_cons_succ] at this
              linarith)
            (by
              simp only [List.take_succ_cons, measure_text_cons,
                List.get_cons_succ] at htrig
              linarith)]
          simp

theorem truncGo_shape (w : Char → ℚ) (ew maxW : ℚ) :
    ∀ (rest : List Char) (wid : ℚ) (acc : List Char), acc ≠ [] →
      truncGo w ew maxW rest wid acc = acc ++ rest ∨
      ∃ k, k ≤ rest.length ∧
        truncGo w ew maxW rest wid acc = acc ++ rest.take k ++ ['.', '.', '.'] := by
  intro rest
  induction rest with
  | nil => intro wid acc hacc; left; simp [truncGo]
  | cons ch r ih =>
      intro wid acc hacc
      unfold truncGo
      by_cases hc : wid + w ch + ew > maxW
      · right
        refine ⟨0, by simp, ?_⟩
        rw [if_pos ⟨hc, hacc⟩]
        simp
      · rw [if_neg (by rintro ⟨hgt, _⟩; exact hc hgt)]
        rcases ih (wid + w ch) (acc ++ [ch]) (by simp) with hfull | ⟨k, hk, heq⟩
        · left
          rw [hfull]
          simp
        · right
          refine ⟨k + 1, by simpa using Nat.succ_le_succ hk, ?_⟩
          rw [heq]
          simp

theorem truncate_cons (w : Char → ℚ) (ch : Char) (r : List Char) (maxW : ℚ) :
    truncate_to_width w (ch :: r) maxW =
      truncGo w (measure_text w ['.', '.', '.']) maxW r (0 + w ch) [ch] := by
  unfold truncate_to_width
  rw [truncGo]
  rw [if_neg (by rintro ⟨_, hne⟩; exact hne rfl)]
  simp

/-- C8 (amended): `truncate_to_width` accumulates glyph advances in
order and truncates (appending "...") exactly at the first position
whose glyph, together with the accumulated width and the width of the
"..." ellipsis itself, would exceed the max width — never at position 0
— so the result is either the unmodified text (when no such position
exists) or a non-empty prefix followed by "...". -/
theorem truncate_to_width_spec (w : Char → ℚ) (text : List Char) (maxW : ℚ) :
    ((∀ (i : Nat) (hi : i < text.length), 0 < i →
        measure_text w (text.take i) + w (text.get ⟨i, hi⟩) +
          measure_text w ['.', '.', '.'] ≤ maxW) →
      truncate_to_width w text maxW = text) ∧
    (∀ (k : Nat) (hk : k < text.length), 0 < k →
      (∀ (i : Nat) (hi : i < text.length), 0 < i → i < k →
        measure_text w (text.take i) + w (text.get ⟨i, hi⟩) +
          measure_text w ['.', '.', '.'] ≤ maxW) →
      measure_text w (text.take k) + w (text.get ⟨k, hk⟩) +
        measure_text w ['.', '.', '.'] > maxW →
      truncate_to_width w text maxW = text.take k ++ ['.', '.', '.']) ∧
    (truncate_to_width w text maxW = text ∨
      ∃ k, 1 ≤ k ∧ k ≤ text.length ∧
        truncate_to_width w text maxW = text.take k ++ ['.', '.', '.']) := by
  refine ⟨?_, ?_, ?_⟩
  · intro hno
    cases text with
    | nil => simp [truncate_to_width, truncGo]
    | cons ch r =>
        rw [truncate_cons]
        rw [truncGo_no_trigger w _ maxW r (0 + w ch) [ch] (by simp) (by
          intro i hi
          have := hno (i + 1) (by simpa using Nat.succ_lt_succ hi) (by omega)
          simp only [List.take_succ_cons, List.get_cons_succ] at this
          rw [measure_text_cons w ch] at this
          linarith)]
        simp
  · intro k hk hkpos hbef htrig
    cases text with
    | nil => simp at hk
    | cons ch r =>
        cases k with
        | zero => omega
        | succ k =>
            rw [truncate_cons]
            rw [truncGo_trigger w _ maxW r k
              (by simpa using Nat.lt_of_succ_lt_succ hk) (0 + w ch) [ch]
              (by simp)
              (by
                intro i hi hik
                have := hbef (i + 1) (by simpa using Nat.succ_lt_succ hi)
                  (by omega) (by omega)
                simp only [List.take_succ_cons, List.get_cons_succ] at this
                rw [measure_text_cons w ch] at this
                linarith)
              (by
                simp only [List.take_succ_cons, List.get_cons_succ] at htrig
                rw [measure_text_cons w ch] at htrig
                linarith)]
            simp
  · cases text with
    | nil =>
        left
        simp [truncate_to_width, truncGo]
    | cons ch r =>
        rw [truncate_cons]
        rcases truncGo_shape w _ maxW r (0 + w ch) [ch] (by simp) with
          hfull | ⟨k, hk, heq⟩
        · left
          rw [hfull]
          simp
        · right
          refine ⟨k + 1, by omega, by simpa using Nat.succ_le_succ hk, ?_⟩
          rw [heq]
          simp

/-- A concrete glyph-width table: 5 units for '.', 10 for every other
character (so "..." measures 15). -/
def exWidth : Char → ℚ := fun c => if c = '.' then 5 else 10

/-- Counterexample to C8 as stated: with max width 21, the text "ab"
fits entirely (20 ≤ 21) yet `truncate_to_width` still truncates it to
"a..." — the stop test includes the ellipsis width, not just the next
glyph. -/
theorem truncate_to_width_counterexample :
    measure_text exWidth ['a', 'b'] ≤ 21 ∧
    truncate_to_width exWidth ['a', 'b'] 21 = ['a', '.', '.', '.'] ∧
    truncate_to_width exWidth ['a', 'b'] 21 ≠ ['a', 'b'] := by
  have heq : truncate_to_width exWidth ['a', 'b'] 21 = ['a', '.', '.', '.'] := by
    norm_num [truncate_to_width, truncGo, measure_text, exWidth,
      (by decide : ('a' = '.') = False), (by decide : ('b' = '.') = False)]
  refine ⟨?_, heq, ?_⟩
  · norm_num [measure_text, exWidth, (by decide : ('a' = '.') = False),
      (by decide : ('b' = '.') = False)]
  · rw [heq]
    decide

/-- Witness for C8 (amended) at a concrete input: "abc" with max width
36 truncates to "ab..." — the first trigger is at index 2
(20 + 10 + 15 > 36), index 1 not triggering (10 + 10 + 15 ≤ 36). -/
theorem truncate_to_width_spec_witness :
    truncate_to_width exWidth ['a', 'b', 'c'] 36 = ['a', 'b', '.', '.', '.'] := by
  have h := (truncate_to_width_spec exWidth ['a', 'b', 'c'] 36).2.1 2
    (by norm_num) (by norm_num)
    (by
      intro i hi h0 h2
      simp only [List.length_cons, List.length_nil] at hi
      interval_cases i
      norm_num [measure_text, exWidth, (by decide : ('a' = '.') = False),
        (by decide : ('b' = '.') = False)])
    (by
      norm_num [measure_text, exWidth, (by decide : ('a' = '.') = False),
        (by decide : ('b' = '.') = False), (by decide : ('c' = '.') = False)])
  simpa using h

/-- Whether a parse result is a Popup command. -/
def isPopupCmd : Option SocketCommand → Bool
  | some (.Popup _ _) => true
  | _ => false

/-- Counterexample to C9 as stated: the parser matches on the
whitespace-trimmed line, so "  MENU_SELECT  " — which is not the literal
"MENU_SELECT" — still yields Select; and a pipe-less "POPUP x" line
yields a Popup command rather than no command. -/
theorem parse_command_counterexample :
    parse_command "  MENU_SELECT  ".toList = some SocketCommand.MenuSelect ∧
    "  MENU_SELECT  ".toList ≠ "MENU_SELECT".toList ∧
    parse_command "POPUP x".toList = some (SocketCommand.Popup "x" "") := by
  refine ⟨by decide, by decide, by decide⟩

/-- C9 (amended): the parser is total and recognizes exactly these
forms of the whitespace-trimmed line — the five literal menu commands,
and Popup for any trimmed line starting with "POPUP " (title/description
split at the first pipe, empty description when absent); every other
line yields no command. -/
theorem parse_command_characterization (s : List Char) :
    (parse_command s = some .MenuToggle ↔ rustTrim s = "MENU_TOGGLE".toList) ∧
    (parse_command s = some .MenuUp ↔ rustTrim s = "MENU_UP".toList) ∧
    (parse_command s = some .MenuDown ↔ rustTrim s = "MENU_DOWN".toList) ∧
    (parse_command s = some .MenuSelect ↔ rustTrim s = "MENU_SELECT".toList) ∧
    (parse_command s = some .MenuBack ↔ rustTrim s = "MENU_BACK".toList) ∧
    (isPopupCmd (parse_command s) = true ↔
      "POPUP ".toList.isPrefixOf (rustTrim s) = true) ∧
    (parse_command s = none ↔
      (rustTrim s ≠ "MENU_TOGGLE".toList ∧ rustTrim s ≠ "MENU_UP".toList ∧
       rustTrim s ≠ "MENU_DOWN".toList ∧ rustTrim s ≠ "MENU_SELECT".toList ∧
       rustTrim s ≠ "MENU_BACK".toList ∧
       "POPUP ".toList.isPrefixOf (rustTrim s) = false)) := by
  simp only [parse_command]
  by_cases h1 : rustTrim s = "MENU_TOGGLE".toList
  · rw [parse_trimmed, if_pos h1, h1]
    decide
  · by_cases h2 : rustTrim s = "MENU_UP".toList
    · rw [parse_trimmed, if_neg h1, if_pos h2, h2]
      simp only [h2] at h1
      decide
    · by_cases h3 : rustTrim s = "MENU_DOWN".toList
      · rw [parse_trimmed, if_neg h1, if_neg h2, if_pos h3, h3]
        decide
      · by_cases h4 : rustTrim s = "MENU_SELECT".toList
        · rw [parse_trimmed, if_neg h1, if_neg h2, if_neg h3, if_pos h4, h4]
          decide
        · by_cases h5 : rustTrim s = "MENU_BACK".toList
          · rw [parse_trimmed, if_neg h1, if_neg h2, if_neg h3, if_neg h4,
              if_pos h5, h5]
            decide
          · by_cases hp : "POPUP ".toList.isPrefixOf (rustTrim s) = true
            · rw [parse_trimmed, if_neg h1, if_neg h2, if_neg h3, if_neg h4,
                if_neg h5, if_pos hp]
              refine ⟨iff_of_false (by simp) h1, iff_of_false (by simp) h2,
                iff_of_false (by simp) h3, iff_of_false (by simp) h4,
                iff_of_false (by simp) h5, iff_of_true rfl hp,
                iff_of_false (by simp) ?_⟩
              rintro ⟨-, -, -, -, -, hfalse⟩
              rw [hfalse] at hp
              cases hp
            · rw [parse_trimmed, if_neg h1, if_neg h2, if_neg h3, if_neg h4,
                if_neg h5, if_neg hp]
              exact ⟨iff_of_false (by simp) h1, iff_of_false (by simp) h2,
                iff_of_false (by simp) h3, iff_of_false (by simp) h4,
                iff_of_false (by simp) h5,
                iff_of_false (by simp [isPopupCmd]) hp,
                iff_of_true rfl ⟨h1, h2, h3, h4, h5, Bool.eq_false_iff.mpr hp⟩⟩

/-- Witness for C9 (amended): the spec's scenarios, obtained from the
characterization. -/
theorem parse_command_characterization_witness :
    parse_command "MENU_SELECT".toList = some SocketCommand.MenuSelect ∧
    parse_command "GARBAGE".toList = none ∧
    parse_command "POPUP First Blood|Defeat the boss".toList =
      some (SocketCommand.Popup "First Blood" "Defeat the boss") := by
  refine ⟨?_, ?_, by decide⟩
  · exact (parse_command_characterization "MENU_SELECT".toList).2.2.2.1.mpr
      (by decide)
  · exact (parse_command_characterization "GARBAGE".toList).2.2.2.2.2.2.mpr
      (by decide)

/-- Counterexample to C10 as stated: the bare line "POPUP " does NOT
yield a Popup command — trimming strips the trailing space first, and
"POPUP" (no space) fails the "POPUP " prefix test, so the parser
returns no command. -/
theorem parse_command_bare_popup_counterexample :
    parse_command "POPUP ".toList = none ∧
    parse_command "POPUP ".toList ≠ some (SocketCommand.Popup "" "") :=
  ⟨by decide, by decide⟩

/-- C10 (amended): every line is whitespace-trimmed before matching
(so "  MENU_TOGGLE  " parses as Toggle); a trimmed "POPUP "-prefixed
line with no pipe still yields a Popup whose title is the whole
remainder and whose description is empty; only the first pipe splits
(later pipes stay in the description); but the bare line "POPUP "
yields no command, because trimming removes its trailing space before
the prefix test. -/
theorem parse_command_edge_cases :
    (∀ s : List Char, parse_command s = parse_trimmed (rustTrim s)) ∧
    parse_command "  MENU_TOGGLE  ".toList = some SocketCommand.MenuToggle ∧
    parse_command "POPUP Hello".toList = some (SocketCommand.Popup "Hello" "") ∧
    parse_command "POPUP a|b|c".toList = some (SocketCommand.Popup "a" "b|c") ∧
    parse_command "POPUP ".toList = none :=
  ⟨fun _ => rfl, by decide, by decide, by decide, by decide⟩
